import Mathlib

/-
Verification of the discovery-and-extraction engine of the GTA dealer
scraper (src/app-csv.js) via a shallow embedding in Lean 4.

Conventions of the embedding:
- JS strings are Lean `String`s; character-level operations work on `String.data`.
- Regular-expression operations of the source are embedded as the equivalent
  recursive character-list functions (documented at each definition).
- DOM access is abstracted: a rendered container element is a lookup function
  from a selector to the text the source's `page.evaluate` call would produce
  for that selector (`none` when the selector matches no element or the lookup
  errors, which the source treats identically by moving on).
- Network and clock effects are oracle inputs: the set of homepage links, the
  per-dealer fate of the two network calls, and timestamps are parameters.
-/

namespace DealerScraper

/-- Per-character lower-casing, embedding JS `String.prototype.toLowerCase`
(the source only compares ASCII pattern strings). -/
def strToLower (s : String) : String := String.mk (s.data.map Char.toLower)

/-- Check that `needle` is an initial segment of the second list. -/
def leadsWith : List Char → List Char → Bool
  | [], _ => true
  | _ :: _, [] => false
  | n :: ns, h :: hs => n == h && leadsWith ns hs

/-- Check that `needle` occurs contiguously somewhere in the second list,
embedding JS `String.prototype.includes`. -/
def hasSub (needle : List Char) : List Char → Bool
  | [] => leadsWith needle []
  | h :: hs => leadsWith needle (h :: hs) || hasSub needle hs

/-- JS `s.includes(sub)`. -/
def strIncludes (s sub : String) : Bool := hasSub sub.data s.data

/-- Strip leading and trailing whitespace from a character list, embedding JS
`String.prototype.trim`. -/
def trimChars (cs : List Char) : List Char :=
  ((cs.dropWhile Char.isWhitespace).reverse.dropWhile Char.isWhitespace).reverse

/-- JS `s.trim()`. -/
def strTrim (s : String) : String := String.mk (trimChars s.data)

/-- One inventory-path rule of the pattern table (src/app-csv.js:24-33). -/
structure Pattern where
  path : String
  keywords : List String
  score : Nat
deriving DecidableEq

/-- The fixed rule table `INVENTORY_PATTERNS` (src/app-csv.js:24-33). -/
def INVENTORY_PATTERNS : List Pattern := [
  { path := "/new-vehicles", keywords := ["new", "inventory", "vehicles"], score := 10 },
  { path := "/inventory/new", keywords := ["new", "inventory"], score := 9 },
  { path := "/new-inventory", keywords := ["new", "inventory"], score := 9 },
  { path := "/vehicles/new", keywords := ["vehicles", "new"], score := 8 },
  { path := "/new", keywords := ["new"], score := 6 },
  { path := "/inventory", keywords := ["inventory"], score := 7 },
  { path := "/showroom", keywords := ["showroom", "new"], score := 5 },
  { path := "/browse", keywords := ["browse", "vehicles"], score := 4 }]

/-- An inventory-page candidate as pushed onto `inventoryUrls`
(src/app-csv.js:150-155). -/
structure Candidate where
  url : String
  confidence : Nat
  text : String
  pattern : String
deriving DecidableEq

/-- The check of one link against one rule (src/app-csv.js:143-157).
`text` is the anchor text after the source's `.toLowerCase().trim()`
(line 132) and `fullUrl` the resolved absolute URL (line 137).
`Math.floor(pattern.score / 2)` is `Nat` division. -/
def matchLink (href text fullUrl : String) (p : Pattern) : Option Candidate :=
  let matchesPath := strIncludes (strToLower href) p.path
  let matchesKeywords := p.keywords.any fun keyword =>
    strIncludes text keyword || strIncludes (strToLower href) keyword
  if matchesPath || matchesKeywords then
    some { url := fullUrl
           confidence := if matchesPath then p.score else p.score / 2
           text := text
           pattern := p.path }
  else none

/-- C1: for every inventory-path rule and every link, a path match records a
candidate scoring exactly the rule's base score, and a keyword-only match
records a candidate scoring exactly `floor(base / 2)`, strictly below the
base score of that same rule. -/
theorem inventory_pattern_scoring (p : Pattern) (hp : p ∈ INVENTORY_PATTERNS)
    (href text fullUrl : String) :
    (strIncludes (strToLower href) p.path = true →
      matchLink href text fullUrl p =
        some { url := fullUrl, confidence := p.score, text := text, pattern := p.path }) ∧
    (strIncludes (strToLower href) p.path = false →
      (p.keywords.any fun keyword =>
        strIncludes text keyword || strIncludes (strToLower href) keyword) = true →
      matchLink href text fullUrl p =
        some { url := fullUrl, confidence := p.score / 2, text := text, pattern := p.path } ∧
      p.score / 2 < p.score) := by
  have hpos : 0 < p.score := by fin_cases hp <;> decide
  constructor
  · intro hpath
    simp only [matchLink, hpath, Bool.true_or, if_pos rfl, if_true]
  · intro hpath hkw
    refine ⟨?_, Nat.div_lt_self hpos (by decide)⟩
    simp only [matchLink, hpath, hkw, Bool.false_or, if_true, if_false, Bool.false_eq_true]

/-- Witness for C1 at the `/inventory` rule: a keyword-only link scores
`7 / 2 = 3`, strictly below the base score `7`. -/
theorem inventory_pattern_scoring_witness :
    matchLink "https://d.example/cars" "new inventory here" "https://d.example/cars"
      { path := "/inventory", keywords := ["inventory"], score := 7 } =
      some { url := "https://d.example/cars", confidence := 7 / 2,
             text := "new inventory here", pattern := "/inventory" } ∧
    7 / 2 < 7 := by
  have h := inventory_pattern_scoring
    { path := "/inventory", keywords := ["inventory"], score := 7 } (by decide)
    "https://d.example/cars" "new inventory here" "https://d.example/cars"
  exact h.2 (by decide) (by decide)

/-- One outbound link of the fetched homepage, as seen by the scoring loop
(src/app-csv.js:130-141): the raw `href` attribute, the raw anchor text, and
the result of resolving the href against the base URL (`none` when the `URL`
constructor throws, in which case the source skips the link). -/
structure Link where
  href : String
  text : String
  resolved : Option String
deriving DecidableEq

/-- The candidates one link contributes, in rule-table order
(src/app-csv.js:134-158). -/
def linkCandidates (l : Link) : List Candidate :=
  if l.href.length > 0 then
    match l.resolved with
    | none => []
    | some fullUrl =>
      INVENTORY_PATTERNS.filterMap (matchLink l.href (strTrim (strToLower l.text)) fullUrl)
  else []

/-- All candidates of a homepage, in link-traversal order (the `inventoryUrls`
array after the `$('a[href]').each` loop, src/app-csv.js:127-159). -/
def collectCandidates (links : List Link) : List Candidate :=
  (links.map linkCandidates).flatten

/-- Insertion step of a stable descending sort by confidence: the incoming
candidate goes after all already-placed candidates of equal confidence. -/
def insertDesc (c : Candidate) : List Candidate → List Candidate
  | [] => [c]
  | b :: bs => if c.confidence > b.confidence then c :: b :: bs else b :: insertDesc c bs

/-- Stable descending sort by confidence, embedding the source's
`inventoryUrls.sort((a, b) => b.confidence - a.confidence)`
(src/app-csv.js:162; ECMAScript `Array.prototype.sort` is stable). -/
def sortCandidates (cands : List Candidate) : List Candidate :=
  cands.foldl (fun acc c => insertDesc c acc) []

/-- The discovery result (src/app-csv.js:161-168): the URL of the head of the
sorted candidate list when any candidate was recorded, else `none`. -/
def findInventoryPage (links : List Link) : Option String :=
  let inventoryUrls := collectCandidates links
  if inventoryUrls.length > 0 then
    (sortCandidates inventoryUrls).head?.map Candidate.url
  else none

/-- Running maximum with first-occurrence tie-breaking, used to characterise
the head of the stable descending sort. -/
def foldMax : Option Candidate → List Candidate → Option Candidate
  | b, [] => b
  | none, c :: cs => foldMax (some c) cs
  | some b, c :: cs => foldMax (some (if c.confidence > b.confidence then c else b)) cs

theorem head_insertDesc (c : Candidate) (l : List Candidate) :
    (insertDesc c l).head? =
      some (match l.head? with
            | none => c
            | some b => if c.confidence > b.confidence then c else b) := by
  cases l with
  | nil => rfl
  | cons b bs =>
    simp only [insertDesc, List.head?_cons]
    by_cases h : c.confidence > b.confidence
    · simp [h]
    · simp [h]

theorem head_foldl_insertDesc (cs : List Candidate) :
    ∀ acc : List Candidate,
      (cs.foldl (fun acc c => insertDesc c acc) acc).head? = foldMax acc.head? cs := by
  induction cs with
  | nil =>
    intro acc
    simp only [List.foldl_nil]
    cases h : acc.head? <;> rfl
  | cons c cs ih =>
    intro acc
    simp only [List.foldl_cons]
    rw [ih (insertDesc c acc), head_insertDesc]
    cases h : acc.head? with
    | none => simp [foldMax]
    | some b => simp [foldMax]

theorem foldMax_spec (cs : List Candidate) :
    ∀ b : Candidate, ∃ r, foldMax (some b) cs = some r ∧
      ((r = b ∧ ∀ c ∈ cs, c.confidence ≤ b.confidence) ∨
       (∃ l1 l2, cs = l1 ++ r :: l2 ∧ b.confidence < r.confidence ∧
         (∀ c ∈ l1, c.confidence < r.confidence) ∧
         (∀ c ∈ l2, c.confidence ≤ r.confidence))) := by
  induction cs with
  | nil => intro b; exact ⟨b, rfl, Or.inl ⟨rfl, by simp⟩⟩
  | cons c cs ih =>
    intro b
    by_cases h : c.confidence > b.confidence
    · obtain ⟨r, hr, hcase⟩ := ih c
      refine ⟨r, by simpa [foldMax, h] using hr, ?_⟩
      rcases hcase with ⟨rfl, hle⟩ | ⟨l1, l2, hsplit, hlt, hl1, hl2⟩
      · exact Or.inr ⟨[], cs, rfl, h, by simp, hle⟩
      · refine Or.inr ⟨c :: l1, l2, by simp [hsplit], lt_trans h hlt, ?_, hl2⟩
        intro x hx
        rcases List.mem_cons.mp hx with rfl | hx
        · exact hlt
        · exact hl1 x hx
    · push_neg at h
      obtain ⟨r, hr, hcase⟩ := ih b
      refine ⟨r, by simpa [foldMax, not_lt.mpr h] using hr, ?_⟩
      rcases hcase with ⟨rfl, hle⟩ | ⟨l1, l2, hsplit, hlt, hl1, hl2⟩
      · refine Or.inl ⟨rfl, ?_⟩
        intro x hx
        rcases List.mem_cons.mp hx with rfl | hx
        · exact h
        · exact hle x hx
      · refine Or.inr ⟨c :: l1, l2, by simp [hsplit], hlt, ?_, hl2⟩
        intro x hx
        rcases List.mem_cons.mp hx with rfl | hx
        · exact lt_of_le_of_lt h hlt
        · exact hl1 x hx

/-- The head of the sorted candidate list is the first-encountered candidate
of maximal confidence. -/
theorem sortCandidates_head (c : Candidate) (cs : List Candidate) :
    ∃ r, (sortCandidates (c :: cs)).head? = some r ∧
      ∃ l1 l2, c :: cs = l1 ++ r :: l2 ∧
        (∀ x ∈ l1, x.confidence < r.confidence) ∧
        (∀ x ∈ l2, x.confidence ≤ r.confidence) := by
  have hh : (sortCandidates (c :: cs)).head? = foldMax (some c) cs := by
    simpa [sortCandidates, insertDesc] using head_foldl_insertDesc cs [c]
  obtain ⟨r, hr, hcase⟩ := foldMax_spec cs c
  refine ⟨r, by rw [hh, hr], ?_⟩
  rcases hcase with ⟨rfl, hle⟩ | ⟨l1, l2, hsplit, hlt, hl1, hl2⟩
  · exact ⟨[], cs, rfl, by simp, hle⟩
  · refine ⟨c :: l1, l2, by simp [hsplit], ?_, hl2⟩
    intro x hx
    rcases List.mem_cons.mp hx with rfl | hx
    · exact hlt
    · exact hl1 x hx

/-- Every recorded candidate scores positively: each rule's base score and its
floored half are both positive. -/
theorem collectCandidates_pos (links : List Link) (c : Candidate)
    (hc : c ∈ collectCandidates links) : 0 < c.confidence := by
  simp only [collectCandidates, List.mem_flatten, List.mem_map] at hc
  obtain ⟨l, ⟨lk, _, rfl⟩, hcl⟩ := hc
  simp only [linkCandidates] at hcl
  split at hcl
  · split at hcl
    · simp at hcl
    · obtain ⟨p, hp, hmatch⟩ := List.mem_filterMap.mp hcl
      have hps : 0 < p.score ∧ 0 < p.score / 2 := by fin_cases hp <;> exact ⟨by decide, by decide⟩
      simp only [matchLink] at hmatch
      split at hmatch
      · cases hmatch
        dsimp only
        split
        · exact hps.1
        · exact hps.2
      · simp at hmatch
  · simp at hcl

/-- C2: discovery returns the URL of a first-encountered maximal-confidence
candidate, and returns `none` exactly when no positively scoring candidate was
recorded (every recorded candidate scores positively). -/
theorem discovery_first_max (links : List Link) :
    ((∀ c ∈ collectCandidates links, ¬ 0 < c.confidence) → findInventoryPage links = none) ∧
    (collectCandidates links ≠ [] → ∃ u, findInventoryPage links = some u) ∧
    (∀ u, findInventoryPage links = some u →
      ∃ best l1 l2, collectCandidates links = l1 ++ best :: l2 ∧ best.url = u ∧
        (∀ x ∈ l1, x.confidence < best.confidence) ∧
        (∀ x ∈ l2, x.confidence ≤ best.confidence)) := by
  refine ⟨?_, ?_, ?_⟩
  · intro hall
    have hnil : collectCandidates links = [] := by
      cases h : collectCandidates links with
      | nil => rfl
      | cons c cs =>
        exact absurd (collectCandidates_pos links c (by rw [h]; simp))
          (hall c (by rw [h]; simp))
    simp [findInventoryPage, hnil]
  · intro hne
    cases h : collectCandidates links with
    | nil => exact absurd h hne
    | cons c cs =>
      obtain ⟨r, hr, _⟩ := sortCandidates_head c cs
      refine ⟨r.url, ?_⟩
      simp only [findInventoryPage, h]
      rw [if_pos (by simp), hr]
      rfl
  · intro u hu
    simp only [findInventoryPage] at hu
    split at hu
    · rename_i hlen
      cases h : collectCandidates links with
      | nil => rw [h] at hlen; simp at hlen
      | cons c cs =>
        obtain ⟨r, hr, l1, l2, hsplit, hl1, hl2⟩ := sortCandidates_head c cs
        rw [h, hr] at hu
        simp only [Option.map_some'] at hu
        exact ⟨r, l1, l2, hsplit, Option.some.inj hu, hl1, hl2⟩
    · cases hu

/-- Witness for C2: on a concrete homepage with two links the discovered URL is
the first-encountered maximal candidate's URL. -/
theorem discovery_first_max_witness :
    findInventoryPage
      [{ href := "/about", text := "About Us", resolved := some "https://d.example/about" },
       { href := "/new-vehicles", text := "New Vehicles",
         resolved := some "https://d.example/new-vehicles" }] = some "https://d.example/new-vehicles" ∧
    ∃ best l1 l2,
      collectCandidates
        [{ href := "/about", text := "About Us", resolved := some "https://d.example/about" },
         { href := "/new-vehicles", text := "New Vehicles",
           resolved := some "https://d.example/new-vehicles" }] = l1 ++ best :: l2 ∧
      best.url = "https://d.example/new-vehicles" ∧
      (∀ x ∈ l1, x.confidence < best.confidence) ∧
      (∀ x ∈ l2, x.confidence ≤ best.confidence) := by
  refine ⟨by decide, ?_⟩
  exact (discovery_first_max _).2.2 "https://d.example/new-vehicles" (by decide)

/-- The selector cascade table `VEHICLE_SELECTORS` (src/app-csv.js:36-65). -/
structure SelectorTable where
  container : List String
  make : List String
  model : List String
  year : List String
  price : List String
  stock : List String
  trim : List String

/-- The fixed selector table of the source (src/app-csv.js:36-65). -/
def VEHICLE_SELECTORS : SelectorTable :=
  { container := [".vehicle-card", ".inventory-item", ".car-item", ".vehicle-listing",
      ".product-item", ".vehicle-tile", ".inventory-card", "[data-vehicle]",
      ".vehicle", ".car", ".auto", ".listing"]
    make := [".make", ".vehicle-make", "[data-make]", ".manufacturer",
      "h2", "h3", ".title", ".vehicle-title", ".brand"]
    model := [".model", ".vehicle-model", "[data-model]", ".vehicle-name",
      ".car-model", ".product-name", ".vehicle-title"]
    year := [".year", ".vehicle-year", "[data-year]", ".model-year"]
    price := [".price", ".vehicle-price", "[data-price]", ".cost", ".msrp",
      ".pricing", ".amount", ".currency", ".vehicle-cost"]
    stock := [".stock", ".vin", "[data-vin]", ".vehicle-id", ".stock-number",
      ".stock-no", ".inventory-id"]
    trim := [".trim", ".vehicle-trim", "[data-trim]", ".grade", ".variant",
      ".package", ".level"] }

/-- Replace every maximal whitespace run by a single space, embedding JS
`text.replace(/\s+/g, ' ')` (src/app-csv.js:308). -/
def collapseChars : List Char → List Char
  | [] => []
  | c :: cs =>
    if c.isWhitespace then
      match cs with
      | [] => [' ']
      | d :: _ => if d.isWhitespace then collapseChars cs else ' ' :: collapseChars cs
    else c :: collapseChars cs

/-- Test for a `/20\d{2}/` match anchored at the start of the character list. -/
def matchYearAt : List Char → Option String
  | c1 :: c2 :: a :: b :: _ =>
    if c1 = '2' ∧ c2 = '0' ∧ a.isDigit ∧ b.isDigit then some (String.mk [c1, c2, a, b])
    else none
  | _ => none

/-- Leftmost `/20\d{2}/` match, embedding JS `text.match(/20\d{2}/)`
(src/app-csv.js:314, 326). -/
def firstYearMatch : List Char → Option String
  | [] => none
  | c :: cs =>
    match matchYearAt (c :: cs) with
    | some y => some y
    | none => firstYearMatch cs

/-- JS `\w` character class. -/
def isWordChar (c : Char) : Bool := c.isAlphanum || c == '_'

/-- Characters kept by the price normalization regex `/[^\d,.$]/g`
(src/app-csv.js:312). -/
def isPriceChar (c : Char) : Bool := c.isDigit || c == ',' || c == '.' || c == '$'

/-- Field-specific text normalization `cleanText` (src/app-csv.js:305-323). -/
def cleanText (text : String) (field : String) : String :=
  if text = "" then ""
  else
    let t := trimChars (collapseChars text.data)
    if field = "price" then String.mk (t.filter isPriceChar)
    else if field = "year" then
      match firstYearMatch t with
      | some y => y
      | none => String.mk (t.take 10)
    else if field = "make" ∨ field = "model" ∨ field = "trim" then
      String.mk ((trimChars (t.filter fun c => isWordChar c || c.isWhitespace || c == '-')).take 50)
    else String.mk (t.take 100)

/-- The second-pass year normalization `extractYear` (src/app-csv.js:325-328):
the first `20\d{2}` match, or the empty string. -/
def extractYear (text : String) : String :=
  match firstYearMatch text.data with
  | some y => y
  | none => ""

/-- The second-pass price normalization `extractPrice` (src/app-csv.js:330-333):
strip everything but digits and commas. -/
def extractPrice (text : String) : String :=
  String.mk (text.data.filter fun c => c.isDigit || c == ',')

/-- A dealer-roster row (src/app-csv.js:97-106). -/
structure Dealer where
  brand : String
  name : String
  address : String
  city : String
  phone : String
  website : String
  validationStatus : String
  lastChecked : String
deriving DecidableEq

/-- A vehicle record as built by `extractVehicleData` (src/app-csv.js:254-266). -/
structure Vehicle where
  dealer : String
  brand : String
  city : String
  make : String
  model : String
  year : String
  trim : String
  price : String
  stock : String
  scrapedAt : String
  sourceUrl : String
deriving DecidableEq

/-- The per-field selector cascade (src/app-csv.js:271-287): take the first
selector whose element yields non-empty text other than the literal string
`undefined`; a missing element or a lookup error (both `none` here) moves on
to the next selector. -/
def cascade (container : String → Option String) : List String → Option String
  | [] => none
  | selector :: rest =>
    match container selector with
    | some text =>
      if text ≠ "" ∧ text ≠ "undefined" then some text else cascade container rest
    | none => cascade container rest

/-- The value `extractVehicleData` stores for one field: the cleaned cascade
hit, or the empty string the vehicle object was initialized with. -/
def fieldFromCascade (container : String → Option String) (selectors : List String)
    (field : String) : String :=
  match cascade container selectors with
  | some text => cleanText text field
  | none => ""

/-- The extraction of one container element, `extractVehicleData`
(src/app-csv.js:253-303): run every field's cascade, post-process year and
price, then backfill an empty make from the dealer's brand. -/
def extractVehicleData (container : String → Option String) (dealerInfo : Dealer)
    (sourceUrl scrapedAt : String) : Vehicle :=
  let make0 := fieldFromCascade container VEHICLE_SELECTORS.make "make"
  let model := fieldFromCascade container VEHICLE_SELECTORS.model "model"
  let year0 := fieldFromCascade container VEHICLE_SELECTORS.year "year"
  let price0 := fieldFromCascade container VEHICLE_SELECTORS.price "price"
  let stock := fieldFromCascade container VEHICLE_SELECTORS.stock "stock"
  let trim := fieldFromCascade container VEHICLE_SELECTORS.trim "trim"
  let year := if year0 ≠ "" then extractYear year0 else year0
  let price := if price0 ≠ "" then extractPrice price0 else price0
  let make := if make0 = "" ∧ dealerInfo.brand ≠ "" then dealerInfo.brand else make0
  { dealer := dealerInfo.name, brand := dealerInfo.brand, city := dealerInfo.city,
    make := make, model := model, year := year, trim := trim, price := price,
    stock := stock, scrapedAt := scrapedAt, sourceUrl := sourceUrl }

/-- The retention filter of the scraping loop (src/app-csv.js:219):
`vehicle.make || vehicle.model` on JS strings is non-emptiness of either. -/
def keepVehicle (v : Vehicle) : Bool := v.make != "" || v.model != ""

/-- The container-selector loop of `scrapeVehicleInventory`
(src/app-csv.js:205-235). A page is abstracted as the list of container
elements each selector matches (`page.$$`); processing is capped at
`Math.min(containers.length, 20)` containers, retained vehicles are appended,
and the loop breaks once the vehicle list is non-empty. A selector error in
the source is logged and skipped, indistinguishable here from matching no
containers. -/
def scrapeLoop (page : String → List (String → Option String)) (dealerInfo : Dealer)
    (inventoryUrl scrapedAt : String) : List String → List Vehicle → List Vehicle
  | [], vehicles => vehicles
  | containerSelector :: rest, vehicles =>
    let containers := page containerSelector
    if containers.length > 0 then
      let vehicles2 := vehicles ++
        (((containers.take (min containers.length 20)).map
          fun c => extractVehicleData c dealerInfo inventoryUrl scrapedAt).filter keepVehicle)
      if vehicles2.length > 0 then vehicles2
      else scrapeLoop page dealerInfo inventoryUrl scrapedAt rest vehicles2
    else scrapeLoop page dealerInfo inventoryUrl scrapedAt rest vehicles

/-- The extraction of one inventory page, `scrapeVehicleInventory`
(src/app-csv.js:177-251), after the render settles: the selector loop started
with an empty vehicle list. A top-level render failure returns `[]` in the
source and is covered by a page matching no selectors. -/
def scrapeVehicleInventory (page : String → List (String → Option String))
    (dealerInfo : Dealer) (inventoryUrl scrapedAt : String) : List Vehicle :=
  scrapeLoop page dealerInfo inventoryUrl scrapedAt VEHICLE_SELECTORS.container []

theorem scrapeLoop_length_le (page : String → List (String → Option String))
    (dealerInfo : Dealer) (inventoryUrl scrapedAt : String) :
    ∀ (sels : List String) (vehicles : List Vehicle), vehicles = [] →
      (scrapeLoop page dealerInfo inventoryUrl scrapedAt sels vehicles).length ≤ 20 := by
  intro sels
  induction sels with
  | nil =>
    intro vehicles hv
    simp [scrapeLoop, hv]
  | cons sel rest ih =>
    intro vehicles hv
    subst hv
    simp only [scrapeLoop]
    have hb : ((((page sel).take (min (page sel).length 20)).map
        fun c => extractVehicleData c dealerInfo inventoryUrl scrapedAt).filter
          keepVehicle).length ≤ 20 := by
      refine le_trans (List.length_filter_le _ _) ?_
      rw [List.length_map, List.length_take]
      omega
    split
    · split
      · simpa using hb
      · rename_i hlen
        refine ih _ ?_
        simp only [not_lt, Nat.le_zero] at hlen
        exact List.eq_nil_of_length_eq_zero hlen
    · exact ih _ rfl

/-- C6: a single extraction call returns at most 20 vehicle records, however
many containers a selector matched and however many selectors were tried. -/
theorem extraction_cap_twenty (page : String → List (String → Option String))
    (dealerInfo : Dealer) (inventoryUrl scrapedAt : String) :
    (scrapeVehicleInventory page dealerInfo inventoryUrl scrapedAt).length ≤ 20 :=
  scrapeLoop_length_le page dealerInfo inventoryUrl scrapedAt VEHICLE_SELECTORS.container [] rfl

/-- C3 amended: a record is retained only if make or model is non-empty, but a
price-only container yields no record only when the dealer's declared brand is
also empty — with a non-empty brand, the make backfill of
src/app-csv.js:298-300 makes the record pass the retention filter. -/
theorem retention_requires_make_or_model (container : String → Option String)
    (dealerInfo : Dealer) (sourceUrl scrapedAt : String) :
    (keepVehicle (extractVehicleData container dealerInfo sourceUrl scrapedAt) = true →
      (extractVehicleData container dealerInfo sourceUrl scrapedAt).make ≠ "" ∨
      (extractVehicleData container dealerInfo sourceUrl scrapedAt).model ≠ "") ∧
    (cascade container VEHICLE_SELECTORS.make = none →
      cascade container VEHICLE_SELECTORS.model = none →
      dealerInfo.brand = "" →
      keepVehicle (extractVehicleData container dealerInfo sourceUrl scrapedAt) = false) := by
  constructor
  · intro hk
    simp only [keepVehicle, Bool.or_eq_true, bne_iff_ne] at hk
    exact hk
  · intro hmake hmodel hbrand
    simp [keepVehicle, extractVehicleData, fieldFromCascade, hmake, hmodel, hbrand]

/-- A container element that yields text only for the `.price` selector. -/
def priceOnlyContainer : String → Option String :=
  fun selector => if selector = ".price" then some "$25,999" else none

/-- A dealer with a declared brand, as in the roster the source loads. -/
def demoDealer : Dealer :=
  { brand := "Toyota", name := "Demo Toyota", address := "1 Main St", city := "Toronto",
    phone := "555-0000", website := "https://demo.example",
    validationStatus := "valid", lastChecked := "2024-01-01" }

/-- C3 counterexample: a container yielding only a price — its make and model
cascades both miss — still produces a retained record when the dealer's brand
is non-empty, because the brand is backfilled into make. -/
theorem price_only_container_retained :
    cascade priceOnlyContainer VEHICLE_SELECTORS.make = none ∧
    cascade priceOnlyContainer VEHICLE_SELECTORS.model = none ∧
    keepVehicle (extractVehicleData priceOnlyContainer demoDealer
      "https://demo.example/new-vehicles" "2024-01-01T00:00:00Z") = true := by
  refine ⟨by decide, by decide, ?_⟩
  decide

/-- Witness for the amended C3 at a concrete brandless dealer: the price-only
container produces no retained record there. -/
theorem retention_requires_make_or_model_witness :
    keepVehicle (extractVehicleData priceOnlyContainer
      { demoDealer with brand := "" } "https://demo.example/new-vehicles"
      "2024-01-01T00:00:00Z") = false :=
  (retention_requires_make_or_model priceOnlyContainer { demoDealer with brand := "" }
    "https://demo.example/new-vehicles" "2024-01-01T00:00:00Z").2
    (by decide) (by decide) rfl

theorem ws_char_cases {c : Char} (h : c.isWhitespace = true) :
    c = ' ' ∨ c = '\t' ∨ c = '\r' ∨ c = '\n' := by
  simp only [Char.isWhitespace, Bool.or_eq_true, decide_eq_true_eq] at h
  tauto

theorem ws_not_digit {c : Char} (h : c.isWhitespace = true) : c.isDigit = false := by
  rcases ws_char_cases h with rfl | rfl | rfl | rfl <;> decide

theorem ws_ne_two {c : Char} (h : c.isWhitespace = true) : c ≠ '2' := by
  rcases ws_char_cases h with rfl | rfl | rfl | rfl <;> decide

theorem ws_ne_zero {c : Char} (h : c.isWhitespace = true) : c ≠ '0' := by
  rcases ws_char_cases h with rfl | rfl | rfl | rfl <;> decide

theorem digit_not_ws {c : Char} (h : c.isDigit = true) : c.isWhitespace = false := by
  cases hw : c.isWhitespace
  · rfl
  · rw [ws_not_digit hw] at h; cases h

theorem matchYearAt_eq_some {cs : List Char} {y : String} :
    matchYearAt cs = some y ↔
      ∃ a b rest, cs = '2' :: '0' :: a :: b :: rest ∧ a.isDigit = true ∧ b.isDigit = true ∧
        y = String.mk ['2', '0', a, b] := by
  constructor
  · intro h
    unfold matchYearAt at h
    split at h
    · rename_i c1 c2 a b rest
      split at h
      · rename_i hcond
        obtain ⟨h1, h2, ha, hb⟩ := hcond
        subst h1; subst h2
        cases h
        exact ⟨a, b, rest, rfl, ha, hb, rfl⟩
      · cases h
    · cases h
  · rintro ⟨a, b, rest, rfl, ha, hb, rfl⟩
    simp [matchYearAt, ha, hb]

theorem firstYearMatch_cons_ne {c : Char} (cs : List Char) (h : c ≠ '2') :
    firstYearMatch (c :: cs) = firstYearMatch cs := by
  have hm : matchYearAt (c :: cs) = none := by
    cases hm : matchYearAt (c :: cs) with
    | none => rfl
    | some y =>
      obtain ⟨a, b, rest, heq, _, _, _⟩ := matchYearAt_eq_some.mp hm
      injection heq with h1 h2
      exact absurd h1 h
  simp [firstYearMatch, hm]

theorem collapse_single {c : Char} :
    collapseChars [c] = if c.isWhitespace then [' '] else [c] := by
  show (if c.isWhitespace then [' '] else c :: collapseChars []) = _
  rfl

theorem collapse_cons_cons (c d : Char) (t : List Char) :
    collapseChars (c :: d :: t) =
      if c.isWhitespace then
        (if d.isWhitespace then collapseChars (d :: t) else ' ' :: collapseChars (d :: t))
      else c :: collapseChars (d :: t) := by
  show (if c.isWhitespace then
      (if d.isWhitespace then collapseChars (d :: t) else ' ' :: collapseChars (d :: t))
    else c :: collapseChars (d :: t)) = _
  rfl

theorem collapse_cons_nonws {c : Char} (cs : List Char) (h : c.isWhitespace = false) :
    collapseChars (c :: cs) = c :: collapseChars cs := by
  cases cs with
  | nil => rw [collapse_single, if_neg (by simp [h])]; rfl
  | cons d t => rw [collapse_cons_cons, if_neg (by simp [h])]

theorem collapse_head_ws : ∀ (cs : List Char) (c : Char), c.isWhitespace = true →
    (collapseChars (c :: cs)).head? = some ' ' := by
  intro cs
  induction cs with
  | nil =>
    intro c hc
    rw [collapse_single, if_pos hc]
    rfl
  | cons d t ih =>
    intro c hc
    rw [collapse_cons_cons, if_pos hc]
    cases hd : d.isWhitespace
    · rw [if_neg (by decide)]
      rfl
    · rw [if_pos rfl]
      exact ih d hd

theorem collapse_eq_cons {cs : List Char} {a : Char} {Y : List Char}
    (ha : a.isWhitespace = false) (h : collapseChars cs = a :: Y) :
    ∃ t, cs = a :: t ∧ collapseChars t = Y := by
  cases cs with
  | nil => simp [collapseChars] at h
  | cons c t =>
    cases hc : c.isWhitespace
    · rw [collapse_cons_nonws t hc] at h
      injection h with h1 h2
      exact ⟨t, by rw [h1], h2⟩
    · have hh := collapse_head_ws t c hc
      rw [h] at hh
      simp only [List.head?_cons, Option.some.injEq] at hh
      rw [hh] at ha
      exact absurd ha (by decide)

theorem firstYearMatch_collapse : ∀ cs : List Char,
    firstYearMatch (collapseChars cs) = firstYearMatch cs := by
  intro cs
  induction cs with
  | nil => rfl
  | cons c t ih =>
    cases hc : c.isWhitespace
    case true =>
      cases t with
      | nil =>
        rw [collapse_single, if_pos hc,
          firstYearMatch_cons_ne [] (by decide), firstYearMatch_cons_ne [] (ws_ne_two hc)]
      | cons d t' =>
        rw [collapse_cons_cons, if_pos hc]
        cases hd : d.isWhitespace
        · rw [if_neg (by decide),
            firstYearMatch_cons_ne _ (by decide), ih, firstYearMatch_cons_ne _ (ws_ne_two hc)]
        · rw [if_pos rfl, ih, firstYearMatch_cons_ne _ (ws_ne_two hc)]
    case false =>
      rw [collapse_cons_nonws t hc]
      have hm : matchYearAt (c :: collapseChars t) = matchYearAt (c :: t) := by
        cases hmt : matchYearAt (c :: t) with
        | some y =>
          obtain ⟨a, b, rest, heq, ha, hb, hy⟩ := matchYearAt_eq_some.mp hmt
          injection heq with h1 h2
          subst h1
          rw [h2]
          rw [collapse_cons_nonws _ (by decide : ('0' : Char).isWhitespace = false),
            collapse_cons_nonws _ (digit_not_ws ha), collapse_cons_nonws _ (digit_not_ws hb)]
          rw [hy]
          simp [matchYearAt, ha, hb]
        | none =>
          cases hmc : matchYearAt (c :: collapseChars t) with
          | none => rfl
          | some y =>
            obtain ⟨a, b, rest, heq, ha, hb, hy⟩ := matchYearAt_eq_some.mp hmc
            injection heq with h1 h2
            subst h1
            obtain ⟨t1, ht1, hc1⟩ := collapse_eq_cons (by decide) h2
            obtain ⟨t2, ht2, hc2⟩ := collapse_eq_cons (digit_not_ws ha) hc1
            obtain ⟨t3, ht3, hc3⟩ := collapse_eq_cons (digit_not_ws hb) hc2
            rw [ht1, ht2, ht3] at hmt
            simp [matchYearAt, ha, hb] at hmt
      cases hm2 : matchYearAt (c :: t) with
      | some y =>
        rw [hm2] at hm
        simp [firstYearMatch, hm, hm2]
      | none =>
        rw [hm2] at hm
        simp only [firstYearMatch, hm, hm2]
        exact ih

theorem matchYearAt_append_one (m : List Char) (x : Char) (hx : x.isWhitespace = true) :
    matchYearAt (m ++ [x]) = matchYearAt m := by
  match m with
  | [] => rfl
  | [m1] => rfl
  | [m1, m2] => rfl
  | [m1, m2, m3] =>
    show (if m1 = '2' ∧ m2 = '0' ∧ m3.isDigit ∧ x.isDigit then _ else none) = none
    rw [if_neg]
    rintro ⟨-, -, -, hd⟩
    rw [ws_not_digit hx] at hd
    cases hd
  | m1 :: m2 :: m3 :: m4 :: r => rfl

theorem firstYearMatch_append_one (m : List Char) (x : Char) (hx : x.isWhitespace = true) :
    firstYearMatch (m ++ [x]) = firstYearMatch m := by
  induction m with
  | nil =>
    rw [List.nil_append, firstYearMatch_cons_ne [] (ws_ne_two hx)]
  | cons c m ih =>
    rw [List.cons_append]
    have hm := matchYearAt_append_one (c :: m) x hx
    rw [List.cons_append] at hm
    cases h2 : matchYearAt (c :: m) with
    | some y =>
      rw [h2] at hm
      simp [firstYearMatch, hm, h2]
    | none =>
      rw [h2] at hm
      simp only [firstYearMatch, hm, h2]
      exact ih

theorem firstYearMatch_append_ws (m : List Char) :
    ∀ w : List Char, (∀ x ∈ w, x.isWhitespace = true) →
      firstYearMatch (m ++ w) = firstYearMatch m := by
  intro w
  induction w using List.reverseRecOn with
  | nil => intro _; rw [List.append_nil]
  | append_singleton w' x ih =>
    intro hw
    rw [← List.append_assoc, firstYearMatch_append_one _ x (hw x (by simp))]
    exact ih fun z hz => hw z (by simp [hz])

theorem firstYearMatch_trim (cs : List Char) :
    firstYearMatch (trimChars cs) = firstYearMatch cs := by
  have hfront : firstYearMatch (cs.dropWhile Char.isWhitespace) = firstYearMatch cs := by
    induction cs with
    | nil => rfl
    | cons c t ih =>
      cases hc : c.isWhitespace
      · rw [List.dropWhile_cons_of_neg (by simp [hc])]
      · rw [List.dropWhile_cons_of_pos (by simp [hc]), ih,
          firstYearMatch_cons_ne _ (ws_ne_two hc)]
  set k := cs.dropWhile Char.isWhitespace with hk
  have hsplit : (k.reverse.dropWhile Char.isWhitespace).reverse ++
      (k.reverse.takeWhile Char.isWhitespace).reverse = k := by
    rw [← List.reverse_append, List.takeWhile_append_dropWhile, List.reverse_reverse]
  have hwsmem : ∀ x ∈ (k.reverse.takeWhile Char.isWhitespace).reverse,
      x.isWhitespace = true := by
    intro x hx
    rw [List.mem_reverse] at hx
    exact List.mem_takeWhile_imp hx
  have hback := firstYearMatch_append_ws
    ((k.reverse.dropWhile Char.isWhitespace).reverse)
    ((k.reverse.takeWhile Char.isWhitespace).reverse) hwsmem
  rw [hsplit] at hback
  rw [trimChars, ← hk, ← hback, hfront]

theorem matchYearAt_of_append {l : List Char} (ext : List Char) {y : String}
    (h : matchYearAt l = some y) :
    matchYearAt (l ++ ext) = some y := by
  obtain ⟨a, b, rest, rfl, ha, hb, rfl⟩ := matchYearAt_eq_some.mp h
  simp [matchYearAt, ha, hb]

theorem firstYearMatch_take_none {cs : List Char} (n : Nat)
    (h : firstYearMatch cs = none) : firstYearMatch (cs.take n) = none := by
  induction cs generalizing n with
  | nil => rw [List.take_nil]; rfl
  | cons c t ih =>
    cases n with
    | zero => rfl
    | succ m =>
      rw [List.take_succ_cons]
      have h1 : matchYearAt (c :: t) = none := by
        cases hm : matchYearAt (c :: t) with
        | none => rfl
        | some y => simp [firstYearMatch, hm] at h
      have h2 : firstYearMatch t = none := by
        simpa only [firstYearMatch, h1] using h
      have h3 : matchYearAt (c :: t.take m) = none := by
        cases hm : matchYearAt (c :: t.take m) with
        | none => rfl
        | some y =>
          have hext := matchYearAt_of_append (t.drop m) hm
          rw [List.cons_append, List.take_append_drop] at hext
          rw [hext] at h1
          cases h1
      simp only [firstYearMatch, h3]
      exact ih m h2

theorem cascade_some {container : String → Option String} :
    ∀ {sels : List String} {t : String},
      cascade container sels = some t → t ≠ "" ∧ t ≠ "undefined" := by
  intro sels
  induction sels with
  | nil => intro t h; cases h
  | cons s rest ih =>
    intro t h
    have h2 : (match container s with
      | some text =>
        if text ≠ "" ∧ text ≠ "undefined" then some text else cascade container rest
      | none => cascade container rest) = some t := h
    cases hcs : container s with
    | none => rw [hcs] at h2; exact ih h2
    | some text =>
      rw [hcs] at h2
      have h3 : (if text ≠ "" ∧ text ≠ "undefined" then some text
        else cascade container rest) = some t := h2
      split at h3
      · rename_i hcond
        injection h3 with h4
        subst h4
        exact hcond
      · exact ih h3

theorem firstYearMatch_shape : ∀ {cs : List Char} {y : String},
    firstYearMatch cs = some y →
    ∃ a b, a.isDigit = true ∧ b.isDigit = true ∧ y = String.mk ['2', '0', a, b] := by
  intro cs
  induction cs with
  | nil => intro y h; cases h
  | cons c t ih =>
    intro y h
    cases hm : matchYearAt (c :: t) with
    | some z =>
      obtain ⟨a, b, rest, _, ha, hb, hz⟩ := matchYearAt_eq_some.mp hm
      have h2 : (match matchYearAt (c :: t) with
        | some y => some y | none => firstYearMatch t) = some y := h
      rw [hm] at h2
      have h3 : some z = some y := h2
      injection h3 with h4
      exact ⟨a, b, ha, hb, by rw [← h4, hz]⟩
    | none =>
      have h2 : (match matchYearAt (c :: t) with
        | some y => some y | none => firstYearMatch t) = some y := h
      rw [hm] at h2
      exact ih h2

/-- C4 amended: the year field of the produced record equals the first
`20\d{2}` token of the raw year text when one exists; when the text contains
no such token, the year field is the empty string — `extractYear`
(src/app-csv.js:290-292) blanks the 10-character truncation that `cleanText`
produced. -/
theorem year_field_normalization (container : String → Option String) (dealerInfo : Dealer)
    (sourceUrl scrapedAt rawYear : String)
    (hc : cascade container VEHICLE_SELECTORS.year = some rawYear) :
    (∀ y, firstYearMatch rawYear.data = some y →
      (extractVehicleData container dealerInfo sourceUrl scrapedAt).year = y) ∧
    (firstYearMatch rawYear.data = none →
      (extractVehicleData container dealerInfo sourceUrl scrapedAt).year = "") := by
  have hne : rawYear ≠ "" := (cascade_some hc).1
  have hclean : cleanText rawYear "year" =
      (match firstYearMatch (trimChars (collapseChars rawYear.data)) with
       | some y => y
       | none => String.mk ((trimChars (collapseChars rawYear.data)).take 10)) := by
    have hnp : ("year" : String) ≠ "price" := by decide
    simp [cleanText, hne, hnp]
  have hyear : (extractVehicleData container dealerInfo sourceUrl scrapedAt).year =
      (if cleanText rawYear "year" ≠ "" then extractYear (cleanText rawYear "year")
       else cleanText rawYear "year") := by
    simp only [extractVehicleData, fieldFromCascade, hc]
  constructor
  · intro y hy
    have hy2 : firstYearMatch (trimChars (collapseChars rawYear.data)) = some y := by
      rw [firstYearMatch_trim, firstYearMatch_collapse]; exact hy
    obtain ⟨a, b, ha, hb, hshape⟩ := firstYearMatch_shape hy
    have hyne : y ≠ "" := by
      intro hcon
      have h3 : (['2', '0', a, b] : List Char) = [] := by
        have := congrArg String.data hcon
        rw [hshape] at hcon
        exact congrArg String.data hcon
      cases h3
    rw [hyear, hclean, hy2, if_pos hyne]
    subst hshape
    simp [extractYear, firstYearMatch, matchYearAt, ha, hb]
  · intro hnone
    have hn2 : firstYearMatch (trimChars (collapseChars rawYear.data)) = none := by
      rw [firstYearMatch_trim, firstYearMatch_collapse]; exact hnone
    rw [hyear, hclean, hn2]
    by_cases hz : String.mk ((trimChars (collapseChars rawYear.data)).take 10) = ""
    · rw [if_neg (not_not.mpr hz)]
      exact hz
    · rw [if_pos hz]
      show (match firstYearMatch ((trimChars (collapseChars rawYear.data)).take 10) with
            | some y => y | none => "") = ""
      rw [firstYearMatch_take_none 10 hn2]

/-- A container element whose only text is a year-cascade hit with no
`20\d{2}` token. -/
def yearOnlyContainer : String → Option String :=
  fun selector => if selector = ".year" then some "Special Edition" else none

/-- C4 counterexample: the raw year text "Special Edition" contains no `20\d{2}`
token, and the produced record's year field is the empty string, not the
10-character truncation "Special Ed" the claim predicts. -/
theorem year_truncation_cex :
    firstYearMatch ("Special Edition".data) = none ∧
    (extractVehicleData yearOnlyContainer demoDealer
      "https://demo.example/new-vehicles" "2024-01-01T00:00:00Z").year = "" ∧
    (extractVehicleData yearOnlyContainer demoDealer
      "https://demo.example/new-vehicles" "2024-01-01T00:00:00Z").year ≠ "Special Ed" := by
  decide

/-- A container element whose year cascade yields text containing a year token. -/
def yearMatchContainer : String → Option String :=
  fun selector => if selector = ".year" then some "Year: 2024 Edition" else none

/-- Witness for the amended C4: a year text containing "2024" produces exactly
that year field. -/
theorem year_field_normalization_witness :
    (extractVehicleData yearMatchContainer demoDealer
      "https://demo.example/new-vehicles" "2024-01-01T00:00:00Z").year = "2024" := by
  have h := year_field_normalization yearMatchContainer demoDealer
    "https://demo.example/new-vehicles" "2024-01-01T00:00:00Z" "Year: 2024 Edition" (by decide)
  exact h.1 "2024" (by decide)

theorem filter_collapse (p : Char → Bool) (hp : ∀ c, c.isWhitespace = true → p c = false) :
    ∀ cs : List Char, (collapseChars cs).filter p = cs.filter p := by
  intro cs
  induction cs with
  | nil => rfl
  | cons c t ih =>
    cases hc : c.isWhitespace
    · rw [collapse_cons_nonws t hc]
      simp only [List.filter_cons, ih]
    · cases t with
      | nil =>
        rw [collapse_single, if_pos hc]
        simp [List.filter_cons, hp ' ' (by decide), hp c hc]
      | cons d t' =>
        rw [collapse_cons_cons, if_pos hc]
        cases hd : d.isWhitespace
        · rw [if_neg (by decide)]
          simp [List.filter_cons, hp ' ' (by decide), hp c hc, ih]
        · rw [if_pos rfl, ih]
          simp [List.filter_cons, hp c hc]

theorem filter_dropWhile_ws (p : Char → Bool) (hp : ∀ c, c.isWhitespace = true → p c = false)
    (cs : List Char) : (cs.dropWhile Char.isWhitespace).filter p = cs.filter p := by
  induction cs with
  | nil => rfl
  | cons c t ih =>
    cases hc : c.isWhitespace
    · rw [List.dropWhile_cons_of_neg (by simp [hc])]
    · rw [List.dropWhile_cons_of_pos (by simp [hc]), ih]
      simp [List.filter_cons, hp c hc]

theorem filter_trim (p : Char → Bool) (hp : ∀ c, c.isWhitespace = true → p c = false)
    (cs : List Char) : (trimChars cs).filter p = cs.filter p := by
  unfold trimChars
  rw [List.filter_reverse, filter_dropWhile_ws p hp, List.filter_reverse,
    List.reverse_reverse]
  exact filter_dropWhile_ws p hp cs

theorem filter_priceChars (cs : List Char) :
    (cs.filter isPriceChar).filter (fun c => c.isDigit || c == ',') =
      cs.filter (fun c => c.isDigit || c == ',') := by
  induction cs with
  | nil => rfl
  | cons c t ih =>
    cases hp : isPriceChar c
    · have hd : (c.isDigit || c == ',') = false := by
        cases hdc : (c.isDigit || c == ',')
        · rfl
        · exfalso
          have hk : isPriceChar c = true := by
            simp only [isPriceChar]
            rcases (Bool.or_eq_true _ _).mp hdc with h | h <;> simp [h]
          rw [hk] at hp; cases hp
      simp [List.filter_cons, hp, hd, ih]
    · simp [List.filter_cons, hp, ih]

/-- C5 amended: the price field of the produced record keeps only the digits
and commas of the raw price text — `cleanText` keeps digits, comma, period and
the dollar sign, but the second pass `extractPrice` (src/app-csv.js:294-296,
330-333) strips period and dollar sign as well. -/
theorem price_field_normalization (container : String → Option String) (dealerInfo : Dealer)
    (sourceUrl scrapedAt rawPrice : String)
    (hc : cascade container VEHICLE_SELECTORS.price = some rawPrice) :
    (extractVehicleData container dealerInfo sourceUrl scrapedAt).price =
      String.mk (rawPrice.data.filter fun c => c.isDigit || c == ',') := by
  have hne : rawPrice ≠ "" := (cascade_some hc).1
  have hclean : cleanText rawPrice "price" =
      String.mk ((trimChars (collapseChars rawPrice.data)).filter isPriceChar) := by
    simp [cleanText, hne]
  have hprice : (extractVehicleData container dealerInfo sourceUrl scrapedAt).price =
      (if cleanText rawPrice "price" ≠ "" then extractPrice (cleanText rawPrice "price")
       else cleanText rawPrice "price") := by
    simp only [extractVehicleData, fieldFromCascade, hc]
  have hcomm : ∀ c : Char, c.isWhitespace = true → isPriceChar c = false := by
    intro c hw
    simp only [isPriceChar]
    rw [ws_not_digit hw]
    rcases ws_char_cases hw with rfl | rfl | rfl | rfl <;> decide
  have hcomm2 : ∀ c : Char, c.isWhitespace = true → (c.isDigit || c == ',') = false := by
    intro c hw
    rw [ws_not_digit hw]
    rcases ws_char_cases hw with rfl | rfl | rfl | rfl <;> decide
  rw [hprice, hclean]
  by_cases hz : String.mk ((trimChars (collapseChars rawPrice.data)).filter isPriceChar) = ""
  · rw [if_neg (not_not.mpr hz)]
    have h0 : (trimChars (collapseChars rawPrice.data)).filter isPriceChar = [] :=
      congrArg String.data hz
    rw [filter_trim isPriceChar hcomm, filter_collapse isPriceChar hcomm] at h0
    have h2 : rawPrice.data.filter (fun c => c.isDigit || c == ',') = [] := by
      rw [← filter_priceChars, h0]
      rfl
    rw [hz, h2]
  · rw [if_pos hz]
    show String.mk (((trimChars (collapseChars rawPrice.data)).filter isPriceChar).filter
      (fun c => c.isDigit || c == ',')) = _
    rw [filter_priceChars, filter_trim _ hcomm2, filter_collapse _ hcomm2]

/-- A container element whose only text is a price with dollar sign, commas
and cents. -/
def priceFullContainer : String → Option String :=
  fun selector => if selector = ".price" then some "$25,999.50" else none

/-- C5 counterexample: the dollar sign and the period are not preserved — the
raw price "$25,999.50" yields the price field "25,99950", not "$25,999.50". -/
theorem price_field_cex :
    (extractVehicleData priceFullContainer demoDealer
      "https://demo.example/new-vehicles" "2024-01-01T00:00:00Z").price = "25,99950" ∧
    (extractVehicleData priceFullContainer demoDealer
      "https://demo.example/new-vehicles" "2024-01-01T00:00:00Z").price ≠ "$25,999.50" := by
  decide

/-- Witness for the amended C5 at the concrete price text "$25,999.50". -/
theorem price_field_normalization_witness :
    (extractVehicleData priceFullContainer demoDealer
      "https://demo.example/new-vehicles" "2024-01-01T00:00:00Z").price =
      String.mk ("$25,999.50".data.filter fun c => c.isDigit || c == ',') :=
  price_field_normalization priceFullContainer demoDealer
    "https://demo.example/new-vehicles" "2024-01-01T00:00:00Z" "$25,999.50" (by decide)

/-- The possible fate of one dealer's network interactions inside the crawl
loop body (src/app-csv.js:400-451): discovery returns no URL, discovery
returns a URL with extraction returning vehicles, or an unexpected error is
thrown while processing the dealer. -/
inductive DealerFate where
  | noDiscovery : DealerFate
  | found (inventoryUrl : String) (vehicles : List Vehicle) : DealerFate
  | raises (msg : String) : DealerFate
deriving DecidableEq

/-- One per-dealer outcome as pushed onto `lastScrapeResults`
(src/app-csv.js:404-449). -/
inductive Outcome where
  | noWebsite : Outcome
  | noInventoryPage : Outcome
  | success (vehicles : List Vehicle) (inventoryUrl : String) : Outcome
  | error (msg : String) : Outcome
deriving DecidableEq

/-- One dealer's entry in the crawl trace: the recorded outcome and whether the
fixed 2-second inter-dealer delay (src/app-csv.js:440) executed after it. -/
structure DealerStep where
  dealerName : String
  outcome : Outcome
  delayed : Bool
deriving DecidableEq

/-- The crawl loop body for one dealer (src/app-csv.js:400-451): a blank
website records `no_website` and `continue`s, skipping the delay; a failed
discovery records `no_inventory_page` and `continue`s, skipping the delay; a
successful extraction records `success` and then awaits the 2-second delay; a
thrown error is caught, recorded as `error`, and also skips the delay. -/
def processDealer (dealer : Dealer) (fate : DealerFate) : DealerStep :=
  if strTrim dealer.website = "" then
    { dealerName := dealer.name, outcome := Outcome.noWebsite, delayed := false }
  else
    match fate with
    | DealerFate.raises msg =>
      { dealerName := dealer.name, outcome := Outcome.error msg, delayed := false }
    | DealerFate.noDiscovery =>
      { dealerName := dealer.name, outcome := Outcome.noInventoryPage, delayed := false }
    | DealerFate.found url vehicles =>
      { dealerName := dealer.name, outcome := Outcome.success vehicles url, delayed := true }

/-- The strictly sequential dealer loop (src/app-csv.js:397-452), each dealer's
network fate supplied by roster position. -/
def crawlLoop (dealers : List Dealer) (fate : Nat → DealerFate) : List DealerStep :=
  dealers.enum.map fun p => processDealer p.2 (fate p.1)

/-- The roster truncation (src/app-csv.js:390): the JS conditional
`maxDealers ? dealersDatabase.slice(0, maxDealers) : dealersDatabase` treats
an absent cap and the number 0 alike, as falsy. -/
def selectDealers (maxDealers : Option Nat) (db : List Dealer) : List Dealer :=
  match maxDealers with
  | some n => if n = 0 then db else db.take n
  | none => db

/-- The crawl-level failures of `scrapeAllDealers`: the synchronous
already-running rejection (src/app-csv.js:382-384) and a propagated
persistence failure (src/app-csv.js:366-368, 454-456). -/
inductive ScrapeError where
  | alreadyRunning : ScrapeError
  | persistFailure (msg : String) : ScrapeError
deriving DecidableEq

/-- The run summary built at src/app-csv.js:458-465. -/
structure CrawlSummary where
  totalDealers : Nat
  successCount : Nat
  failCount : Nat
  totalVehicles : Nat
  timestamp : String
  results : List DealerStep
deriving DecidableEq

/-- The vehicles a recorded outcome contributed to `allVehicles`
(src/app-csv.js:438). -/
def outcomeVehicles : Outcome → List Vehicle
  | Outcome.success vs _ => vs
  | _ => []

/-- Outcome classification used for the success and failure counters. -/
def isSuccess : Outcome → Bool
  | Outcome.success _ _ => true
  | _ => false

/-- The orchestrator `scrapeAllDealers` (src/app-csv.js:381-476): it rejects
when a crawl is already in progress (the thrown error 'Scraping already in
progress'), otherwise sets the flag, runs the loop, persists when any vehicles
were collected (`persistFails` is the oracle for `saveVehiclesToCSV` throwing,
which propagates out of the try block), and resets the flag in the `finally`
block on every exit path. Returns the call's result together with the final
`scrapingInProgress` flag. -/
def scrapeAllDealers (inProgress : Bool) (db : List Dealer) (fate : Nat → DealerFate)
    (persistFails : Bool) (maxDealers : Option Nat) (timestamp : String) :
    Except ScrapeError CrawlSummary × Bool :=
  if inProgress then (Except.error ScrapeError.alreadyRunning, inProgress)
  else
    let dealersToScrape := selectDealers maxDealers db
    let results := crawlLoop dealersToScrape fate
    let allVehicles := (results.map fun r => outcomeVehicles r.outcome).flatten
    if persistFails ∧ allVehicles.length > 0 then
      (Except.error (ScrapeError.persistFailure "Error saving to CSV"), false)
    else
      (Except.ok
        { totalDealers := dealersToScrape.length
          successCount := (results.filter fun r => isSuccess r.outcome).length
          failCount := (results.filter fun r => !isSuccess r.outcome).length
          totalVehicles := allVehicles.length
          timestamp := timestamp
          results := results }, false)

/-- C7 amended: the fixed 2-second inter-dealer delay executes exactly after
`Success` outcomes; the `NoWebsite`, `NoInventoryPage` and `Error` paths move
on to the next dealer without the delay (their `continue` statements and the
`catch` block sit before the delay, src/app-csv.js:403-451). -/
theorem delay_only_after_success (dealers : List Dealer) (fate : Nat → DealerFate)
    (step : DealerStep) (hstep : step ∈ crawlLoop dealers fate) :
    step.delayed = true ↔ ∃ vehicles url, step.outcome = Outcome.success vehicles url := by
  simp only [crawlLoop, List.mem_map] at hstep
  obtain ⟨⟨i, d⟩, _, rfl⟩ := hstep
  simp only [processDealer]
  split
  · simp
  · cases fate i <;> simp

/-- A dealer row with a blank website, as the roster loader can produce. -/
def noSiteDealer : Dealer :=
  { brand := "Ford", name := "No Site Motors", address := "2 Side St", city := "Oshawa",
    phone := "555-0001", website := "", validationStatus := "", lastChecked := "" }

/-- C7 counterexample: a processed dealer whose `NoWebsite` outcome is
recorded with no inter-dealer delay executed after it — the `continue` at
src/app-csv.js:411 skips the delay, so the delay does not run for every
outcome. -/
theorem no_delay_after_no_website_cex :
    crawlLoop [noSiteDealer] (fun _ => DealerFate.noDiscovery) =
      [{ dealerName := "No Site Motors", outcome := Outcome.noWebsite, delayed := false }] := by
  decide

/-- Witness for the amended C7 at a concrete no-website trace entry. -/
theorem delay_only_after_success_witness :
    (({ dealerName := "No Site Motors", outcome := Outcome.noWebsite, delayed := false } :
      DealerStep).delayed = true ↔
      ∃ vehicles url,
        ({ dealerName := "No Site Motors", outcome := Outcome.noWebsite,
           delayed := false } : DealerStep).outcome = Outcome.success vehicles url) :=
  delay_only_after_success [noSiteDealer] (fun _ => DealerFate.noDiscovery) _ (by decide)

/-- C8: while a crawl is in progress every start is rejected with the
already-running error and the flag stays set; an accepted crawl resets the
flag to false on every exit path — normal completion and persistence failure
alike — so a start made after any completed crawl is never rejected as
already running. -/
theorem single_flight_guard (db db2 : List Dealer) (fate fate2 : Nat → DealerFate)
    (persistFails persistFails2 : Bool) (maxDealers maxDealers2 : Option Nat)
    (timestamp timestamp2 : String) :
    (scrapeAllDealers true db fate persistFails maxDealers timestamp).1 =
      Except.error ScrapeError.alreadyRunning ∧
    (scrapeAllDealers true db fate persistFails maxDealers timestamp).2 = true ∧
    (scrapeAllDealers false db fate persistFails maxDealers timestamp).2 = false ∧
    (scrapeAllDealers ((scrapeAllDealers false db fate persistFails maxDealers timestamp).2)
        db2 fate2 persistFails2 maxDealers2 timestamp2).1 ≠
      Except.error ScrapeError.alreadyRunning := by
  have h2 : ∀ (dbx : List Dealer) fx px mx tx,
      (scrapeAllDealers false dbx fx px mx tx).2 = false := by
    intro dbx fx px mx tx
    simp only [scrapeAllDealers, Bool.false_eq_true, if_false]
    split <;> rfl
  refine ⟨rfl, rfl, h2 db fate persistFails maxDealers timestamp, ?_⟩
  rw [h2 db fate persistFails maxDealers timestamp]
  simp only [scrapeAllDealers, Bool.false_eq_true, if_false]
  split <;> simp

/-- C10: starting with `maxDealers = 0` skips the truncation — 0 is treated
the same as an absent cap — so the crawl processes the entire dealer roster,
not zero dealers. -/
theorem max_dealers_zero_full_roster (db : List Dealer) (fate : Nat → DealerFate)
    (persistFails : Bool) (timestamp : String) :
    selectDealers (some 0) db = db ∧
    scrapeAllDealers false db fate persistFails (some 0) timestamp =
      scrapeAllDealers false db fate persistFails none timestamp ∧
    (crawlLoop (selectDealers (some 0) db) fate).length = db.length := by
  refine ⟨rfl, ?_, ?_⟩
  · simp [scrapeAllDealers, selectDealers]
  · simp [crawlLoop, selectDealers]

/-- Double every quote character, the `str.replace(/"/g, '""')` of `escapeCSV`
(src/app-csv.js:376). -/
def doubleQuotes : List Char → List Char
  | [] => []
  | c :: cs => if c = '"' then '"' :: '"' :: doubleQuotes cs else c :: doubleQuotes cs

/-- The CSV field writer `escapeCSV` (src/app-csv.js:372-379): a field
containing the delimiter, a quote or a newline is wrapped in quotes with every
embedded quote doubled; any other field is written verbatim. The
null/undefined branch of the source cannot arise for the string fields
modelled here. -/
def escapeCSV (field : String) : String :=
  if ',' ∈ field.data ∨ '"' ∈ field.data ∨ '\n' ∈ field.data then
    "\"" ++ String.mk (doubleQuotes field.data) ++ "\""
  else field

/-- JS `Array.prototype.join(',')` over the escaped row (src/app-csv.js:359). -/
def joinComma : List String → String
  | [] => ""
  | [f] => f
  | f :: g :: rest => f ++ "," ++ joinComma (g :: rest)

/-- The `.replace(/^"|"$/g, '')` of the parser (src/app-csv.js:77, 83): remove
one leading and one trailing quote when present. -/
def stripEdgeQuotes (cs : List Char) : List Char :=
  let cs1 := if cs.head? = some '"' then cs.tail else cs
  if cs1.getLast? = some '"' then cs1.dropLast else cs1

/-- Finishing one accumulated field, `current.trim().replace(/^"|"$/g, '')`
(src/app-csv.js:77, 83). -/
def finishField (current : List Char) : String :=
  String.mk (stripEdgeQuotes (trimChars current))

/-- The character loop of `parseCSVLine` (src/app-csv.js:67-85): a quote
toggles the in-quotes flag and is dropped, a comma outside quotes finishes
the field, any other character is appended to the current field. -/
def parseCSVChars : List Char → List Char → Bool → List String
  | [], current, _ => [finishField current]
  | c :: rest, current, inQuotes =>
    if c = '"' then parseCSVChars rest current (!inQuotes)
    else if c = ',' ∧ inQuotes = false then
      finishField current :: parseCSVChars rest [] inQuotes
    else parseCSVChars rest (current ++ [c]) inQuotes

/-- The CSV line parser `parseCSVLine` (src/app-csv.js:67-85). -/
def parseCSVLine (line : String) : List String :=
  parseCSVChars line.data [] false

/-- The field list of one catalog row, in the column order of
`saveVehiclesToCSV` (src/app-csv.js:345-358). -/
def vehicleRow (v : Vehicle) : List String :=
  [v.dealer, v.brand, v.city, v.make, v.model, v.year, v.trim, v.price, v.stock,
   v.scrapedAt, v.sourceUrl]

/-- One written catalog line (src/app-csv.js:345-359). -/
def writeRow (fields : List String) : String :=
  joinComma (fields.map escapeCSV)

theorem parse_quote_step (rest current : List Char) (inQuotes : Bool) :
    parseCSVChars ('"' :: rest) current inQuotes = parseCSVChars rest current (!inQuotes) := by
  show (if '"' = '"' then parseCSVChars rest current (!inQuotes)
    else if ('"' = ',' ∧ inQuotes = false) then
      finishField current :: parseCSVChars rest [] inQuotes
    else parseCSVChars rest (current ++ ['"']) inQuotes) = _
  rw [if_pos rfl]

theorem parse_comma_step (rest current : List Char) :
    parseCSVChars (',' :: rest) current false =
      finishField current :: parseCSVChars rest [] false := by
  show (if ',' = '"' then parseCSVChars rest current (!false)
    else if (',' = ',' ∧ (false : Bool) = false) then
      finishField current :: parseCSVChars rest [] false
    else parseCSVChars rest (current ++ [',']) false) = _
  rw [if_neg (by decide), if_pos ⟨rfl, rfl⟩]

theorem parse_plain_step (c : Char) (rest current : List Char) (inQuotes : Bool)
    (hq : c ≠ '"') (hc : ¬ (c = ',' ∧ inQuotes = false)) :
    parseCSVChars (c :: rest) current inQuotes =
      parseCSVChars rest (current ++ [c]) inQuotes := by
  show (if c = '"' then parseCSVChars rest current (!inQuotes)
    else if (c = ',' ∧ inQuotes = false) then
      finishField current :: parseCSVChars rest [] inQuotes
    else parseCSVChars rest (current ++ [c]) inQuotes) = _
  rw [if_neg hq, if_neg hc]

theorem parseCSVChars_pass (tail : List Char) (inQuotes : Bool) :
    ∀ (cs current : List Char),
      (∀ c ∈ cs, c ≠ '"' ∧ (c = ',' → inQuotes = true)) →
      parseCSVChars (cs ++ tail) current inQuotes =
        parseCSVChars tail (current ++ cs) inQuotes := by
  intro cs
  induction cs with
  | nil => intro current _; simp
  | cons c cs ih =>
    intro current h
    obtain ⟨hq, hcomma⟩ := h c (by simp)
    have hnc : ¬ (c = ',' ∧ inQuotes = false) := by
      rintro ⟨h1, h2⟩
      rw [hcomma h1] at h2
      exact Bool.noConfusion h2
    rw [List.cons_append, parse_plain_step c (cs ++ tail) current inQuotes hq hnc,
      ih (current ++ [c]) (fun x hx => h x (by simp [hx])), List.append_assoc]
    rfl

theorem doubleQuotes_no_quote : ∀ {cs : List Char}, '"' ∉ cs → doubleQuotes cs = cs := by
  intro cs
  induction cs with
  | nil => intro _; rfl
  | cons c t ih =>
    intro h
    simp only [List.mem_cons, not_or] at h
    obtain ⟨h1, h2⟩ := h
    show (if c = '"' then '"' :: '"' :: doubleQuotes t else c :: doubleQuotes t) = c :: t
    rw [if_neg (fun he => h1 he.symm), ih h2]

theorem mem_of_head_eq {cs : List Char} {a : Char} (h : cs.head? = some a) : a ∈ cs := by
  cases cs with
  | nil => cases h
  | cons c t =>
    injection h with h1
    rw [← h1]
    exact List.mem_cons_self c t

theorem mem_of_getLast_eq : ∀ {cs : List Char} {a : Char}, cs.getLast? = some a → a ∈ cs := by
  intro cs
  induction cs with
  | nil => intro a h; cases h
  | cons c t ih =>
    intro a h
    cases t with
    | nil =>
      have h2 : some c = some a := h
      injection h2 with h3
      rw [← h3]
      exact List.mem_cons_self c []
    | cons d t' =>
      rw [List.getLast?_cons_cons] at h
      exact List.mem_cons_of_mem c (ih h)

theorem stripEdgeQuotes_no_quote {cs : List Char} (h : '"' ∉ cs) :
    stripEdgeQuotes cs = cs := by
  have h1 : ¬ cs.head? = some '"' := fun he => h (mem_of_head_eq he)
  have h2 : ¬ cs.getLast? = some '"' := fun he => h (mem_of_getLast_eq he)
  simp only [stripEdgeQuotes, if_neg h1, if_neg h2]

theorem finishField_id (f : String) (hq : '"' ∉ f.data) (ht : trimChars f.data = f.data) :
    finishField f.data = f := by
  rw [finishField, ht, stripEdgeQuotes_no_quote hq]

theorem parse_escaped_field (f : String) (hq : '"' ∉ f.data) (hn : '\n' ∉ f.data)
    (tail : List Char) :
    parseCSVChars ((escapeCSV f).data ++ tail) [] false =
      parseCSVChars tail f.data false := by
  by_cases hcomma : ',' ∈ f.data
  · have hesc : (escapeCSV f).data = '"' :: (f.data ++ ['"']) := by
      simp only [escapeCSV, if_pos (Or.inl hcomma)]
      rw [String.data_append, String.data_append, doubleQuotes_no_quote hq]
      rfl
    rw [hesc, List.cons_append, parse_quote_step, List.append_assoc]
    simp only [Bool.not_false]
    rw [parseCSVChars_pass (['"'] ++ tail) true f.data []
      (fun c hc => ⟨fun he => hq (he ▸ hc), fun _ => rfl⟩)]
    rw [List.nil_append, List.singleton_append, parse_quote_step]
    simp only [Bool.not_true]
  · have hesc : escapeCSV f = f := by
      simp only [escapeCSV]
      rw [if_neg]
      rintro (h | h | h)
      · exact hcomma h
      · exact hq h
      · exact hn h
    rw [hesc, parseCSVChars_pass tail false f.data []
      (fun c hc => ⟨fun he => hq (he ▸ hc), fun he => absurd (he ▸ hc) hcomma⟩)]
    rw [List.nil_append]

/-- C9 amended: writing a row and parsing it back restores the fields exactly
for records whose fields contain no quote character and no line break and
carry no leading or trailing whitespace — commas are fine, handled by the
quoting. (A field containing a quote character is not restored: the parser of
src/app-csv.js:67-85 consumes doubled quotes while toggling its in-quotes
state and never emits them.) -/
theorem csv_round_trip : ∀ (fields : List String), fields ≠ [] →
    (∀ f ∈ fields, '"' ∉ f.data ∧ '\n' ∉ f.data ∧ trimChars f.data = f.data) →
    parseCSVLine (writeRow fields) = fields := by
  intro fields
  induction fields with
  | nil => intro hne _; cases hne rfl
  | cons f rest ih =>
    intro _ h
    obtain ⟨hq, hn, ht⟩ := h f (by simp)
    cases rest with
    | nil =>
      show parseCSVChars (escapeCSV f).data [] false = [f]
      rw [← List.append_nil (escapeCSV f).data, parse_escaped_field f hq hn]
      show [finishField f.data] = [f]
      rw [finishField_id f hq ht]
    | cons g rest' =>
      have hjoin : writeRow (f :: g :: rest') = escapeCSV f ++ "," ++ writeRow (g :: rest') := by
        rfl
      show parseCSVChars (writeRow (f :: g :: rest')).data [] false = _
      rw [hjoin, String.data_append, String.data_append]
      rw [List.append_assoc, parse_escaped_field f hq hn]
      have hcomma : (("," : String).data ++ (writeRow (g :: rest')).data) =
          ',' :: (writeRow (g :: rest')).data := rfl
      rw [hcomma, parse_comma_step, finishField_id f hq ht]
      have := ih (by simp) (fun x hx => h x (by simp [List.mem_cons] at hx ⊢; tauto))
      show f :: parseCSVChars (writeRow (g :: rest')).data [] false = f :: g :: rest'
      rw [show parseCSVChars (writeRow (g :: rest')).data [] false =
        parseCSVLine (writeRow (g :: rest')) from rfl, this]

/-- A vehicle whose Model field contains quote characters. -/
def quoteVehicle : Vehicle :=
  { dealer := "Demo Honda", brand := "Honda", city := "Toronto", make := "Honda",
    model := "Civic \"Si\"", year := "2024", trim := "", price := "28999", stock := "S9",
    scrapedAt := "2024-01-01T00:00:00Z", sourceUrl := "https://h.example/new" }

/-- C9 counterexample: a record whose Model field contains quote characters
does not survive the round trip — the written row parses back with Model
`Civic Si` instead of `Civic "Si"`. -/
theorem csv_quote_cex :
    parseCSVLine (writeRow (vehicleRow quoteVehicle)) ≠ vehicleRow quoteVehicle ∧
    parseCSVLine (writeRow (vehicleRow quoteVehicle)) =
      ["Demo Honda", "Honda", "Toronto", "Honda", "Civic Si", "2024", "", "28999", "S9",
       "2024-01-01T00:00:00Z", "https://h.example/new"] := by
  decide

/-- A vehicle whose Model field contains the delimiter. -/
def commaVehicle : Vehicle :=
  { dealer := "Demo Toyota", brand := "Toyota", city := "Toronto", make := "Toyota",
    model := "Corolla, Sport", year := "2024", trim := "LE", price := "25999", stock := "S123",
    scrapedAt := "2024-01-01T00:00:00Z", sourceUrl := "https://demo.example/new-vehicles" }

/-- Witness for the amended C9: a record whose Model field contains a comma
round-trips field for field. -/
theorem csv_round_trip_witness :
    parseCSVLine (writeRow (vehicleRow commaVehicle)) = vehicleRow commaVehicle :=
  csv_round_trip (vehicleRow commaVehicle) (by decide) (by decide)

end DealerScraper
